import Mathlib

/-!
Shallow embedding of the argument-specification builder of `clap-rs`
(`src/builders/arg/mod.rs`): the `Arg` struct, its component structs
`Base`, `Switched`, `Valued`, the `ArgSettings` flag set, and the
builder-style mutators the claims are about.

Rust `&str`/`OsStr` values are modelled as `String` (the `OsStr`
conversions in `default_value_if` etc. are byte-level identities),
`Option<T>` as `Option`, `Vec<T>` as `List`, `char` as `Char`, and
`vec_map::VecMap<T>` as an association list `List (Nat × T)` whose
`insert` replaces an existing key in place and otherwise appends.
Validator callbacks (`validator`, `validator_os`) are omitted from
`Valued`: they are opaque closures that no claim inspects, and the
spec equality in question never reads the `v` component at all.
-/

namespace Clap

/-- The per-argument settings, from the spec's settings bitset and the
`ArgSettings` variants used by `src/builders/arg/mod.rs` (the defining
file `settings.rs` is not part of the sources). -/
inductive ArgSettings
  | Required
  | Multiple
  | EmptyValues
  | Global
  | Hidden
  | TakesValue
  | UseValueDelimiter
  | NextLineHelp
  | RequiredUnlessAll
  | ValueDelimiterNotSet
  | AllowLeadingHyphen
  | RequireDelimiter
  deriving DecidableEq, Repr

/-- Modelled from the spec: the settings bitset ("Settings bitset:
required, global, hidden, next-line-help, allow-hyphen-values,
empty-values-allowed, require-delimiter, value-delimiter-not-yet-set
(construction-only sentinel), required-unless-all, takes-value"),
one named boolean per flag; `settings.rs` is not part of the sources.
The construction-only sentinel `valueDelimiterNotSet` starts set. -/
structure ArgFlags where
  required : Bool := false
  multiple : Bool := false
  emptyValues : Bool := false
  globalArg : Bool := false
  hidden : Bool := false
  takesValue : Bool := false
  useValueDelimiter : Bool := false
  nextLineHelp : Bool := false
  requiredUnlessAll : Bool := false
  valueDelimiterNotSet : Bool := true
  allowLeadingHyphen : Bool := false
  requireDelimiter : Bool := false
  deriving DecidableEq, Repr

/-- Set one flag in the bitset. -/
def ArgFlags.set (f : ArgFlags) : ArgSettings → ArgFlags
  | .Required => { f with required := true }
  | .Multiple => { f with multiple := true }
  | .EmptyValues => { f with emptyValues := true }
  | .Global => { f with globalArg := true }
  | .Hidden => { f with hidden := true }
  | .TakesValue => { f with takesValue := true }
  | .UseValueDelimiter => { f with useValueDelimiter := true }
  | .NextLineHelp => { f with nextLineHelp := true }
  | .RequiredUnlessAll => { f with requiredUnlessAll := true }
  | .ValueDelimiterNotSet => { f with valueDelimiterNotSet := true }
  | .AllowLeadingHyphen => { f with allowLeadingHyphen := true }
  | .RequireDelimiter => { f with requireDelimiter := true }

/-- Clear one flag in the bitset. -/
def ArgFlags.unset (f : ArgFlags) : ArgSettings → ArgFlags
  | .Required => { f with required := false }
  | .Multiple => { f with multiple := false }
  | .EmptyValues => { f with emptyValues := false }
  | .Global => { f with globalArg := false }
  | .Hidden => { f with hidden := false }
  | .TakesValue => { f with takesValue := false }
  | .UseValueDelimiter => { f with useValueDelimiter := false }
  | .NextLineHelp => { f with nextLineHelp := false }
  | .RequiredUnlessAll => { f with requiredUnlessAll := false }
  | .ValueDelimiterNotSet => { f with valueDelimiterNotSet := false }
  | .AllowLeadingHyphen => { f with allowLeadingHyphen := false }
  | .RequireDelimiter => { f with requireDelimiter := false }

/-- Query one flag of the bitset. -/
def ArgFlags.isSet (f : ArgFlags) : ArgSettings → Bool
  | .Required => f.required
  | .Multiple => f.multiple
  | .EmptyValues => f.emptyValues
  | .Global => f.globalArg
  | .Hidden => f.hidden
  | .TakesValue => f.takesValue
  | .UseValueDelimiter => f.useValueDelimiter
  | .NextLineHelp => f.nextLineHelp
  | .RequiredUnlessAll => f.requiredUnlessAll
  | .ValueDelimiterNotSet => f.valueDelimiterNotSet
  | .AllowLeadingHyphen => f.allowLeadingHyphen
  | .RequireDelimiter => f.requireDelimiter

/-- The identity-plus-settings core of an argument (`self.b` in
`mod.rs`); its fields are those `mod.rs` reads and writes through
`self.b` (the defining file `base.rs` is not part of the sources):
name, help texts, settings, and the name-based cross-argument rule
lists `r_unless`, `blacklist` (conflicts), `overrides`, `groups`,
`requires`. -/
structure Base where
  name : String
  help : Option String := none
  long_help : Option String := none
  settings : ArgFlags := {}
  r_unless : Option (List String) := none
  blacklist : Option (List String) := none
  overrides : Option (List String) := none
  groups : Option (List String) := none
  requires : Option (List (Option String × String)) := none
  deriving DecidableEq, Repr

/-- The switch data of an argument (`self.s` in `mod.rs`): short and
long switches, aliases tagged with a visible-in-help bit, display
order (999 by default per the `display_order` docs). -/
structure Switched where
  short : Option Char := none
  long : Option String := none
  aliases : Option (List (String × Bool)) := none
  disp_ord : Nat := 999
  deriving DecidableEq, Repr

/-- Insertion into the `vec_map::VecMap` model: replace in place when
the key is present, append otherwise. -/
def vmInsert {α : Type} (m : List (Nat × α)) (k : Nat) (v : α) : List (Nat × α) :=
  if m.any (fun p => p.1 == k) then
    m.map (fun p => if p.1 == k then (k, v) else p)
  else
    m ++ [(k, v)]

/-- The value rules of an argument (`self.v` in `mod.rs`): possible
values, cosmetic value names, cardinality bounds, delimiter, defaults,
terminator. Validator callbacks are omitted (opaque closures). -/
structure Valued where
  possible_vals : Option (List String) := none
  val_names : Option (List (Nat × String)) := none
  num_vals : Option Nat := none
  max_vals : Option Nat := none
  min_vals : Option Nat := none
  val_delim : Option Char := none
  default_val : Option String := none
  default_vals_ifs : Option (List (Nat × (String × Option String × String))) := none
  terminator : Option String := none
  deriving DecidableEq, Repr

/-- The abstract representation of a command-line argument (`pub struct
Arg` in `mod.rs`). -/
structure Arg where
  b : Base
  s : Switched := {}
  v : Valued := {}
  index : Option Nat := none
  r_ifs : Option (List (String × String)) := none
  deriving DecidableEq, Repr

namespace Arg

/-- `Arg::with_name`: a fresh argument with only its name set. -/
def with_name (n : String) : Arg := { b := { name := n } }

/-- `Arg::setb` / `Base::set`. -/
def setb (a : Arg) (st : ArgSettings) : Arg :=
  { a with b := { a.b with settings := a.b.settings.set st } }

/-- `Arg::unsetb` / `Base::unset`. -/
def unsetb (a : Arg) (st : ArgSettings) : Arg :=
  { a with b := { a.b with settings := a.b.settings.unset st } }

/-- `Arg::is_set` / `Base::is_set`. -/
def is_set (a : Arg) (st : ArgSettings) : Bool := a.b.settings.isSet st

/-- `Arg::short`: strips every leading hyphen and keeps the first
remaining character, if any. -/
def short (a : Arg) (s : String) : Arg :=
  { a with s := { a.s with short := (s.toList.dropWhile (fun c => c == '-')).head? } }

/-- `Arg::long`: strips every leading hyphen. -/
def long (a : Arg) (l : String) : Arg :=
  { a with s := { a.s with long := some (String.mk (l.toList.dropWhile (fun c => c == '-'))) } }

/-- Modelled from the spec: `Arg::required` (defined outside the
provided sources) sets or clears the `required` flag of the settings
bitset according to its boolean argument. -/
def required (a : Arg) (r : Bool) : Arg :=
  if r then a.setb .Required else a.unsetb .Required

/-- `Arg::required_unless`: push `name` onto `b.r_unless` (creating the
list if absent), then `required(true)`. -/
def required_unless (a : Arg) (name : String) : Arg :=
  let a := { a with b := { a.b with r_unless := some ((a.b.r_unless.getD []) ++ [name]) } }
  a.required true

/-- `Arg::required_unless_all`: push all `names` onto `b.r_unless`,
set `RequiredUnlessAll`, then `required(true)`. -/
def required_unless_all (a : Arg) (names : List String) : Arg :=
  let a := { a with b := { a.b with r_unless := some ((a.b.r_unless.getD []) ++ names) } }
  let a := a.setb .RequiredUnlessAll
  a.required true

/-- `Arg::required_unless_one`: push all `names` onto `b.r_unless`,
then `required(true)` (no `RequiredUnlessAll`). -/
def required_unless_one (a : Arg) (names : List String) : Arg :=
  let a := { a with b := { a.b with r_unless := some ((a.b.r_unless.getD []) ++ names) } }
  a.required true

/-- `Arg::requires`: push `(None, name)` onto `b.requires`. -/
def requires (a : Arg) (name : String) : Arg :=
  { a with b := { a.b with requires := some ((a.b.requires.getD []) ++ [(none, name)]) } }

/-- `Arg::requires_if`: push `(Some(val), arg)` onto `b.requires`. -/
def requires_if (a : Arg) (val : String) (arg : String) : Arg :=
  { a with b := { a.b with requires := some ((a.b.requires.getD []) ++ [(some val, arg)]) } }

/-- `Arg::requires_ifs`: push `(Some(val), arg)` for each pair. -/
def requires_ifs (a : Arg) (ifs : List (String × String)) : Arg :=
  { a with b := { a.b with
      requires := some ((a.b.requires.getD []) ++ ifs.map (fun p => (some p.1, p.2))) } }

/-- `Arg::requires_all`: push `(None, s)` for each name. -/
def requires_all (a : Arg) (names : List String) : Arg :=
  { a with b := { a.b with
      requires := some ((a.b.requires.getD []) ++ names.map (fun n => ((none : Option String), n))) } }

/-- `Arg::possible_values`: push every name onto `v.possible_vals`. -/
def possible_values (a : Arg) (names : List String) : Arg :=
  { a with v := { a.v with possible_vals := some ((a.v.possible_vals.getD []) ++ names) } }

/-- `Arg::possible_value`: push one name onto `v.possible_vals`. -/
def possible_value (a : Arg) (name : String) : Arg :=
  { a with v := { a.v with possible_vals := some ((a.v.possible_vals.getD []) ++ [name]) } }

/-- `Arg::number_of_values`: set `TakesValue` and store the exact
count. -/
def number_of_values (a : Arg) (qty : Nat) : Arg :=
  let a := a.setb .TakesValue
  { a with v := { a.v with num_vals := some qty } }

/-- `Arg::max_values`: set `TakesValue` and store the maximum. -/
def max_values (a : Arg) (qty : Nat) : Arg :=
  let a := a.setb .TakesValue
  { a with v := { a.v with max_vals := some qty } }

/-- `Arg::min_values`: store the minimum, then set `TakesValue`. -/
def min_values (a : Arg) (qty : Nat) : Arg :=
  let a := { a with v := { a.v with min_vals := some qty } }
  a.setb .TakesValue

/-- `Arg::value_delimiter`: clear the `ValueDelimiterNotSet` sentinel,
set `TakesValue` and `UseValueDelimiter`, and store the first character
of `d`; the source calls `.expect(...)` on `d.chars().nth(0)`, which
panics when `d` is empty — modelled as `none`. -/
def value_delimiter (a : Arg) (d : String) : Option Arg :=
  let a := a.unsetb .ValueDelimiterNotSet
  let a := a.setb .TakesValue
  let a := a.setb .UseValueDelimiter
  match d.toList.head? with
  | some c => some { a with v := { a.v with val_delim := some c } }
  | none => none

/-- `Arg::value_names`: set `TakesValue`; if the delimiter sentinel is
still set, clear it and set `UseValueDelimiter`; then insert every name
into the `val_names` map at successive keys starting at its length. -/
def value_names (a : Arg) (names : List String) : Arg :=
  let a := a.setb .TakesValue
  let a :=
    if a.is_set .ValueDelimiterNotSet then
      (a.unsetb .ValueDelimiterNotSet).setb .UseValueDelimiter
    else a
  match a.v.val_names with
  | some vals =>
      let upd := (names.foldl
        (fun (p : List (Nat × String) × Nat) s => (vmInsert p.1 p.2 s, p.2 + 1))
        (vals, vals.length)).1
      { a with v := { a.v with val_names := some upd } }
  | none =>
      let vm := (names.foldl
        (fun (p : List (Nat × String) × Nat) n => (vmInsert p.1 p.2 n, p.2 + 1))
        ([], 0)).1
      { a with v := { a.v with val_names := some vm } }

/-- `Arg::value_name`: set `TakesValue` and insert the name into the
`val_names` map at key `len` (or key 0 into a fresh map). -/
def value_name (a : Arg) (name : String) : Arg :=
  let a := a.setb .TakesValue
  match a.v.val_names with
  | some vals =>
      { a with v := { a.v with val_names := some (vmInsert vals vals.length name) } }
  | none =>
      { a with v := { a.v with val_names := some (vmInsert [] 0 name) } }

/-- `Arg::default_value`: set `TakesValue` and store the unconditional
default. -/
def default_value (a : Arg) (val : String) : Arg :=
  let a := a.setb .TakesValue
  { a with v := { a.v with default_val := some val } }

/-- `Arg::default_value_if_os`: set `TakesValue` and insert the triple
`(arg, val, default)` into the `default_vals_ifs` map at key `len` (or
key 0 into a fresh map). -/
def default_value_if_os (a : Arg) (arg : String) (val : Option String) (default : String) : Arg :=
  let a := a.setb .TakesValue
  match a.v.default_vals_ifs with
  | some vm =>
      { a with v := { a.v with
          default_vals_ifs := some (vmInsert vm vm.length (arg, val, default)) } }
  | none =>
      { a with v := { a.v with
          default_vals_ifs := some (vmInsert [] 0 (arg, val, default)) } }

/-- `Arg::default_value_if`: the `&str` front end of
`default_value_if_os` (the `OsStr` conversions are identities on the
model). -/
def default_value_if (a : Arg) (arg : String) (val : Option String) (default : String) : Arg :=
  a.default_value_if_os arg val default

/-- `Arg::default_value_ifs`: apply `default_value_if_os` to each
triple in order. -/
def default_value_ifs (a : Arg) (ifs : List (String × Option String × String)) : Arg :=
  ifs.foldl (fun acc p => acc.default_value_if_os p.1 p.2.1 p.2.2) a

/-- `PartialEq for Arg` in `mod.rs` compares only the `b` component:
`self.b == other.b`. The `Base` comparison itself lives outside the
provided sources; modelled from the spec as equality of the
identity+settings core, i.e. structural equality of `Base`. -/
def argEq (a1 a2 : Arg) : Bool := a1.b == a2.b

/-- The `requires` rule list as a plain list (absent ≡ empty). -/
def requiresList (a : Arg) : List (Option String × String) := a.b.requires.getD []

/-- The `required_unless` name list as a plain list (absent ≡ empty). -/
def rUnlessList (a : Arg) : List String := a.b.r_unless.getD []

/-- The cosmetic value-name map as a plain list (absent ≡ empty). -/
def valNames (a : Arg) : List (Nat × String) := a.v.val_names.getD []

/-- The conditional-default entries in map order, keys dropped. -/
def dvIfsList (a : Arg) : List (String × Option String × String) :=
  (a.v.default_vals_ifs.getD []).map (fun p => p.2)

/-- Well-formedness of the value-name map: every key is below the
length, as holds for every map the builder constructs (it only ever
inserts at key `len`). -/
def vnWf (a : Arg) : Prop := ∀ p ∈ a.valNames, p.1 < a.valNames.length

/-- Well-formedness of the conditional-default map: every key is below
the length, as holds for every map the builder constructs. -/
def dvWf (a : Arg) : Prop :=
  ∀ p ∈ a.v.default_vals_ifs.getD [], p.1 < (a.v.default_vals_ifs.getD []).length

/-- Modelled from the spec: the effective exact value cardinality used
by the resolution engine (not among the provided sources) — "optional
exact `number_of_values`; ... optional list of cosmetic value names
(their count, if >1, implies exact cardinality equal to that count)";
an explicitly stored `number_of_values` takes precedence. -/
def effective_num_vals (a : Arg) : Option Nat :=
  match a.v.num_vals with
  | some n => some n
  | none =>
    match a.v.val_names with
    | some vals => if vals.length > 1 then some vals.length else none
    | none => none

end Arg

/-- Whether one conditional-default entry `(trigger_arg, trigger_value,
default)` fires, given the presence map from argument names to their
first resolved value: the trigger argument must be present and, when a
trigger value is given, equal it. -/
def dvMatches (present : String → Option String) (e : String × Option String × String) : Bool :=
  match present e.1 with
  | none => false
  | some v =>
    match e.2.1 with
    | none => true
    | some tv => tv == v

/-- Modelled from the spec: the resolution engine's conditional-default
substitution (not among the provided sources) — "evaluate
`default_value_if` entries in declaration order; the first whose
trigger argument is present and whose trigger value (if any) matches
wins". -/
def first_matching_default (entries : List (String × Option String × String))
    (present : String → Option String) : Option String :=
  match entries with
  | [] => none
  | e :: rest =>
    match present e.1 with
    | none => first_matching_default rest present
    | some v =>
      match e.2.1 with
      | none => some e.2.2
      | some tv => if tv == v then some e.2.2 else first_matching_default rest present

/-- Inserting at a key larger than every key present appends. -/
theorem vmInsert_fresh {α : Type} (m : List (Nat × α)) (k : Nat) (v : α)
    (h : ∀ p ∈ m, p.1 < k) : vmInsert m k v = m ++ [(k, v)] := by
  unfold vmInsert
  have : m.any (fun p => p.1 == k) = false := by
    simp only [List.any_eq_false]
    intro p hp
    have := h p hp
    simp only [beq_iff_eq]
    omega
  simp [this]

/-- The counter-driven insertion fold of `value_names`: starting from a
map whose keys all lie below the counter, it appends one entry per
name, so the length grows by the number of names and all keys stay
below the advanced counter. -/
theorem vnFold_length {α : Type} (ns : List α) :
    ∀ (m : List (Nat × α)) (l : Nat), (∀ p ∈ m, p.1 < l) →
      (ns.foldl (fun (p : List (Nat × α) × Nat) s => (vmInsert p.1 p.2 s, p.2 + 1)) (m, l)).1.length
        = m.length + ns.length
      ∧ ∀ p ∈ (ns.foldl (fun (p : List (Nat × α) × Nat) s => (vmInsert p.1 p.2 s, p.2 + 1)) (m, l)).1,
          p.1 < l + ns.length := by
  induction ns with
  | nil => intro m l h; simpa using h
  | cons x xs ih =>
    intro m l h
    have hfresh := vmInsert_fresh m l x h
    have h' : ∀ p ∈ m ++ [(l, x)], p.1 < l + 1 := by
      intro p hp
      rcases List.mem_append.1 hp with hp | hp
      · exact Nat.lt_succ_of_lt (h p hp)
      · simp only [List.mem_singleton] at hp
        subst hp
        exact Nat.lt_succ_self l
    have := ih (m ++ [(l, x)]) (l + 1) h'
    simp only [List.foldl_cons, hfresh]
    constructor
    · rw [this.1]
      simp only [List.length_append, List.length_cons, List.length_nil]
      omega
    · intro p hp
      have hlt := this.2 p hp
      simp only [List.length_cons]
      omega

end Clap

namespace Clap

/-- Flag operations do not touch the value rules. -/
theorem setb_v (a : Arg) (st : ArgSettings) : (a.setb st).v = a.v := rfl

/-- Flag operations do not touch the value rules. -/
theorem unsetb_v (a : Arg) (st : ArgSettings) : (a.unsetb st).v = a.v := rfl

/-- `value_names` on a well-formed map: the resulting map is present,
one entry longer per name, still well-formed, and `num_vals` is left
alone. -/
theorem value_names_val_names (a : Arg) (ns : List String) (h : a.vnWf) :
    ∃ vals, (a.value_names ns).v.val_names = some vals
      ∧ vals.length = a.valNames.length + ns.length
      ∧ (∀ p ∈ vals, p.1 < vals.length)
      ∧ (a.value_names ns).v.num_vals = a.v.num_vals := by
  have h' : ∀ p ∈ a.v.val_names.getD [], p.1 < (a.v.val_names.getD []).length := h
  simp only [Arg.value_names]
  have hva : (if (a.setb ArgSettings.TakesValue).is_set ArgSettings.ValueDelimiterNotSet then
        ((a.setb ArgSettings.TakesValue).unsetb ArgSettings.ValueDelimiterNotSet).setb
          ArgSettings.UseValueDelimiter
      else a.setb ArgSettings.TakesValue).v = a.v := by
    split <;> rfl
  rw [hva]
  cases hv : a.v.val_names with
  | some vals =>
    have hw : ∀ p ∈ vals, p.1 < vals.length := by
      intro p hp
      have := h' p (by rw [hv]; exact hp)
      rwa [hv] at this
    have hf := vnFold_length ns vals vals.length hw
    refine ⟨_, rfl, ?_, ?_, by simp⟩
    · rw [hf.1]
      simp [Arg.valNames, hv]
    · intro p hp
      rw [hf.1]
      exact hf.2 p hp
  | none =>
    have hf := vnFold_length ns ([] : List (Nat × String)) 0 (by simp)
    refine ⟨_, rfl, ?_, ?_, by simp⟩
    · rw [hf.1]
      simp [Arg.valNames, hv]
    · intro p hp
      rw [hf.1]
      simpa using hf.2 p hp

/-- `value_name` on a well-formed map: the resulting map is present,
one entry longer, still well-formed, and `num_vals` is left alone. -/
theorem value_name_val_names (a : Arg) (n : String) (h : a.vnWf) :
    ∃ vals, (a.value_name n).v.val_names = some vals
      ∧ vals.length = a.valNames.length + 1
      ∧ (∀ p ∈ vals, p.1 < vals.length)
      ∧ (a.value_name n).v.num_vals = a.v.num_vals := by
  have h' : ∀ p ∈ a.v.val_names.getD [], p.1 < (a.v.val_names.getD []).length := h
  simp only [Arg.value_name, setb_v]
  cases hv : a.v.val_names with
  | some vals =>
    have hw : ∀ p ∈ vals, p.1 < vals.length := by
      intro p hp
      have := h' p (by rw [hv]; exact hp)
      rwa [hv] at this
    have hfresh := vmInsert_fresh vals vals.length n hw
    refine ⟨_, rfl, ?_, ?_, by simp⟩
    · rw [hfresh]
      simp [Arg.valNames, hv]
    · intro p hp
      rw [hfresh] at hp ⊢
      rcases List.mem_append.1 hp with hp | hp
      · simp only [List.length_append, List.length_cons, List.length_nil]
        exact Nat.lt_succ_of_lt (hw p hp)
      · simp only [List.mem_singleton] at hp
        subst hp
        simp
  | none =>
    refine ⟨_, rfl, by simp [Arg.valNames, hv, vmInsert], ?_, by simp⟩
    intro p hp
    simp [vmInsert] at hp
    subst hp
    simp [vmInsert]

/-- Repeated `value_name` accumulates one entry per call, preserves
well-formedness, and leaves `num_vals` alone. -/
theorem value_name_foldl (ns : List String) :
    ∀ a : Arg, a.vnWf →
      (ns.foldl Arg.value_name a).valNames.length = a.valNames.length + ns.length
      ∧ (ns.foldl Arg.value_name a).vnWf
      ∧ (ns.foldl Arg.value_name a).v.num_vals = a.v.num_vals := by
  induction ns with
  | nil => intro a h; exact ⟨by simp, h, rfl⟩
  | cons x xs ih =>
    intro a h
    obtain ⟨vals, hsome, hlen, hwf, hnum⟩ := value_name_val_names a x h
    have hwf' : (a.value_name x).vnWf := by
      intro p hp
      simp only [Arg.valNames, hsome, Option.getD_some] at hp ⊢
      exact hwf p hp
    have hih := ih (a.value_name x) hwf'
    simp only [List.foldl_cons]
    refine ⟨?_, hih.2.1, by rw [hih.2.2, hnum]⟩
    rw [hih.1]
    simp only [Arg.valNames, hsome, Option.getD_some]
    rw [hlen]
    simp only [List.length_cons, Arg.valNames]
    omega

/-- If no exact count is stored and more than one value name is, the
effective cardinality is the value-name count. -/
theorem effective_num_vals_of_val_names (a : Arg)
    (h : a.v.num_vals = none) (h2 : 1 < a.valNames.length) :
    Arg.effective_num_vals a = some a.valNames.length := by
  unfold Arg.effective_num_vals
  rw [h]
  cases hv : a.v.val_names with
  | some vals =>
    simp only [Arg.valNames, hv, Option.getD_some] at h2 ⊢
    simp [h2]
  | none =>
    simp [Arg.valNames, hv] at h2

/-- `default_value_if_os` on a well-formed map appends its entry and
preserves well-formedness. -/
theorem default_value_if_os_spec (a : Arg) (x : String) (v : Option String) (d : String)
    (h : a.dvWf) :
    (a.default_value_if_os x v d).dvIfsList = a.dvIfsList ++ [(x, v, d)]
      ∧ (a.default_value_if_os x v d).dvWf := by
  have h' : ∀ p ∈ a.v.default_vals_ifs.getD [], p.1 < (a.v.default_vals_ifs.getD []).length := h
  simp only [Arg.default_value_if_os, setb_v, Arg.dvIfsList, Arg.dvWf]
  cases hv : a.v.default_vals_ifs with
  | some vm =>
    have hw : ∀ p ∈ vm, p.1 < vm.length := by
      intro p hp
      have := h' p (by rw [hv]; exact hp)
      rwa [hv] at this
    have hfresh := vmInsert_fresh vm vm.length (x, v, d) hw
    constructor
    · simp [hfresh]
    · intro p hp
      simp only [Option.getD_some, hfresh] at hp ⊢
      rcases List.mem_append.1 hp with hp | hp
      · simp only [List.length_append, List.length_cons, List.length_nil]
        exact Nat.lt_succ_of_lt (hw p hp)
      · simp only [List.mem_singleton] at hp
        subst hp
        simp
  | none =>
    constructor
    · simp [vmInsert]
    · intro p hp
      simp [vmInsert] at hp
      subst hp
      simp [vmInsert]

/-- `default_value_ifs` appends every triple in declaration order and
preserves well-formedness. -/
theorem default_value_ifs_spec (ifs : List (String × Option String × String)) :
    ∀ a : Arg, a.dvWf →
      (a.default_value_ifs ifs).dvIfsList = a.dvIfsList ++ ifs
      ∧ (a.default_value_ifs ifs).dvWf := by
  induction ifs with
  | nil => intro a h; exact ⟨by simp [Arg.default_value_ifs], h⟩
  | cons x xs ih =>
    intro a h
    have h1 := default_value_if_os_spec a x.1 x.2.1 x.2.2 h
    have h2 := ih (a.default_value_if_os x.1 x.2.1 x.2.2) h1.2
    unfold Arg.default_value_ifs at h2 ⊢
    rw [List.foldl_cons]
    refine ⟨?_, h2.2⟩
    rw [h2.1, h1.1]
    simp

/-- The spec-modelled conditional-default evaluation returns exactly
the default of the first entry in declaration order whose trigger
fires. -/
theorem first_matching_default_eq_find (entries : List (String × Option String × String))
    (present : String → Option String) :
    first_matching_default entries present
      = (entries.find? (dvMatches present)).map (fun e => e.2.2) := by
  induction entries with
  | nil => rfl
  | cons e rest ih =>
    cases hp : present e.1 with
    | none =>
      have hm : dvMatches present e = false := by simp [dvMatches, hp]
      rw [List.find?_cons_of_neg _ (by simp [hm])]
      simp only [first_matching_default, hp]
      exact ih
    | some v =>
      cases ht : e.2.1 with
      | none =>
        have hm : dvMatches present e = true := by simp [dvMatches, hp, ht]
        rw [List.find?_cons_of_pos _ hm]
        simp only [first_matching_default, hp, ht]
        rfl
      | some tv =>
        by_cases heq : tv == v
        · have hm : dvMatches present e = true := by simp [dvMatches, hp, ht, heq]
          rw [List.find?_cons_of_pos _ hm]
          simp only [first_matching_default, hp, ht, heq, if_true]
          rfl
        · have hm : dvMatches present e = false := by
            simp only [dvMatches, hp, ht]
            simpa using heq
          rw [List.find?_cons_of_neg _ (by simp [hm])]
          simp only [first_matching_default, hp, ht]
          rw [if_neg (by simpa using heq)]
          exact ih

/-- C1 counterexample: `value_delimiter` is not total — on the empty
delimiter string the source panics (`.expect` on `chars().nth(0)`),
modelled as `none`. -/
theorem value_delimiter_empty_string_panics :
    Arg.value_delimiter (Arg.with_name "cfg") "" = none := rfl

/-- C1 (amended): every embedded builder mutator is a total function of
its specification; the one partial operation in the source is
`value_delimiter`, which succeeds exactly on non-empty delimiter
strings and panics on the empty string. -/
theorem mutators_total_iff_delimiter_nonempty (a : Arg) (d : String) :
    (Arg.value_delimiter a d).isSome = true ↔ d ≠ "" := by
  unfold Arg.value_delimiter
  cases hd : d.toList with
  | nil =>
    have hde : d = "" := by
      have h0 : d.data = [] := hd
      cases d
      simp_all
    subst hde
    simp_all
  | cons c cs =>
    constructor
    · intro _
      intro he
      rw [he] at hd
      have h0 : ([] : List Char) = c :: cs := hd
      exact List.noConfusion h0
    · intro _
      rfl

/-- C1 witness: `value_delimiter(";")` succeeds. -/
theorem mutators_total_iff_delimiter_nonempty_witness :
    (Arg.value_delimiter (Arg.with_name "config") ";").isSome = true :=
  (mutators_total_iff_delimiter_nonempty (Arg.with_name "config") ";").mpr (by decide)

/-- C2: on a specification with no explicit `number_of_values` whose
value-name map is well-formed, setting value names (one `value_names`
call or repeated `value_name` calls) so that more than one name is set
makes the effective exact value cardinality equal the number of value
names set. -/
theorem value_names_count_implies_exact_cardinality (a : Arg) (ns : List String)
    (hwf : a.vnWf) (hnum : a.v.num_vals = none)
    (hcount : 1 < a.valNames.length + ns.length) :
    Arg.effective_num_vals (a.value_names ns) = some (a.valNames.length + ns.length)
    ∧ Arg.effective_num_vals (ns.foldl Arg.value_name a)
        = some (a.valNames.length + ns.length) := by
  obtain ⟨vals, hsome, hlen, hwf2, hnum2⟩ := value_names_val_names a ns hwf
  have hv1 : (a.value_names ns).valNames.length = a.valNames.length + ns.length := by
    simp [Arg.valNames, hsome, hlen]
  have e1 := effective_num_vals_of_val_names (a.value_names ns)
    (by rw [hnum2, hnum]) (by rw [hv1]; exact hcount)
  have hfold := value_name_foldl ns a hwf
  have e2 := effective_num_vals_of_val_names (ns.foldl Arg.value_name a)
    (by rw [hfold.2.2, hnum]) (by rw [hfold.1]; exact hcount)
  exact ⟨by rw [e1, hv1], by rw [e2, hfold.1]⟩

/-- C2 witness: two value names on a fresh argument give effective
cardinality 2, by either construction path. -/
theorem value_names_count_implies_exact_cardinality_witness :
    Arg.effective_num_vals ((Arg.with_name "io").value_names ["INFILE", "OUTFILE"]) = some 2
    ∧ Arg.effective_num_vals (["INFILE", "OUTFILE"].foldl Arg.value_name (Arg.with_name "io"))
        = some 2 :=
  value_names_count_implies_exact_cardinality (Arg.with_name "io") ["INFILE", "OUTFILE"]
    (by intro p hp; exact absurd hp (List.not_mem_nil p)) rfl (by decide)

/-- C3: for every non-empty delimiter string, `value_delimiter` enables
`UseValueDelimiter` and `TakesValue`, clears the
`ValueDelimiterNotSet` sentinel, and stores the first character of the
string as the delimiter. -/
theorem value_delimiter_sets_flags_and_first_char (a : Arg) (d : String) (c : Char)
    (h : d.toList.head? = some c) :
    ∃ a2, Arg.value_delimiter a d = some a2
      ∧ a2.is_set ArgSettings.UseValueDelimiter = true
      ∧ a2.is_set ArgSettings.TakesValue = true
      ∧ a2.is_set ArgSettings.ValueDelimiterNotSet = false
      ∧ a2.v.val_delim = some c := by
  simp only [Arg.value_delimiter, h]
  exact ⟨_, rfl, rfl, rfl, rfl, rfl⟩

/-- C3 witness: `value_delimiter(";")` on a fresh argument. -/
theorem value_delimiter_sets_flags_and_first_char_witness :
    ∃ a2, Arg.value_delimiter (Arg.with_name "config") ";" = some a2
      ∧ a2.is_set ArgSettings.UseValueDelimiter = true
      ∧ a2.is_set ArgSettings.TakesValue = true
      ∧ a2.is_set ArgSettings.ValueDelimiterNotSet = false
      ∧ a2.v.val_delim = some ';' :=
  value_delimiter_sets_flags_and_first_char (Arg.with_name "config") ";" ';' (by decide)

/-- C4: `value_names` enables `TakesValue`; when the
`ValueDelimiterNotSet` sentinel was still set it enables
`UseValueDelimiter` and clears the sentinel, and when the sentinel was
already cleared it leaves the `UseValueDelimiter` choice unchanged; the
stored delimiter character is never touched. -/
theorem value_names_delimiter_flag_effects (a : Arg) (ns : List String) :
    (a.value_names ns).is_set ArgSettings.TakesValue = true
    ∧ (a.is_set ArgSettings.ValueDelimiterNotSet = true →
        (a.value_names ns).is_set ArgSettings.UseValueDelimiter = true
        ∧ (a.value_names ns).is_set ArgSettings.ValueDelimiterNotSet = false)
    ∧ (a.is_set ArgSettings.ValueDelimiterNotSet = false →
        (a.value_names ns).is_set ArgSettings.UseValueDelimiter
            = a.is_set ArgSettings.UseValueDelimiter
        ∧ (a.value_names ns).is_set ArgSettings.ValueDelimiterNotSet = false)
    ∧ (a.value_names ns).v.val_delim = a.v.val_delim := by
  have hif : (a.setb ArgSettings.TakesValue).is_set ArgSettings.ValueDelimiterNotSet
      = a.is_set ArgSettings.ValueDelimiterNotSet := rfl
  simp only [Arg.value_names, hif]
  cases hs : a.is_set ArgSettings.ValueDelimiterNotSet <;>
    cases hv : a.v.val_names <;>
      simp_all [Arg.setb, Arg.unsetb, Arg.is_set, ArgFlags.set, ArgFlags.unset, ArgFlags.isSet]

/-- C4 witness: with the sentinel still set (fresh argument),
`value_names` enables delimiter use and clears the sentinel. -/
theorem value_names_delimiter_flag_effects_witness :
    ((Arg.with_name "io").value_names ["A", "B"]).is_set ArgSettings.TakesValue = true
    ∧ ((Arg.with_name "io").value_names ["A", "B"]).is_set ArgSettings.UseValueDelimiter = true
    ∧ ((Arg.with_name "io").value_names ["A", "B"]).is_set ArgSettings.ValueDelimiterNotSet
        = false := by
  have h := value_names_delimiter_flag_effects (Arg.with_name "io") ["A", "B"]
  have h2 := h.2.1 rfl
  exact ⟨h.1, h2.1, h2.2⟩

/-- C5: each value-cardinality mutator — `number_of_values`,
`min_values`, `max_values` — enables `TakesValue`. -/
theorem cardinality_rules_enable_takes_value (a : Arg) (n : Nat) :
    (a.number_of_values n).is_set ArgSettings.TakesValue = true
    ∧ (a.min_values n).is_set ArgSettings.TakesValue = true
    ∧ (a.max_values n).is_set ArgSettings.TakesValue = true :=
  ⟨rfl, rfl, rfl⟩

/-- C6: specification equality compares exactly the identity+settings
core `b`: same core with arbitrary value rules, switch data, index and
`r_ifs` compare equal, and equality holds precisely when the cores are
equal. -/
theorem arg_equality_compares_core_only :
    (∀ (b : Base) (s1 s2 : Switched) (v1 v2 : Valued) (i1 i2 : Option Nat)
        (r1 r2 : Option (List (String × String))),
      Arg.argEq ⟨b, s1, v1, i1, r1⟩ ⟨b, s2, v2, i2, r2⟩ = true)
    ∧ ∀ a1 a2 : Arg, Arg.argEq a1 a2 = true ↔ a1.b = a2.b := by
  constructor
  · intro b s1 s2 v1 v2 i1 i2 r1 r2
    simp [Arg.argEq]
  · intro a1 a2
    simp [Arg.argEq]

/-- C6 witness: a spec and the same spec with possible values added
share the core and compare equal. -/
theorem arg_equality_compares_core_only_witness :
    Arg.argEq (Arg.with_name "cfg") ((Arg.with_name "cfg").possible_values ["fast", "slow"])
      = true :=
  (arg_equality_compares_core_only.2 (Arg.with_name "cfg")
    ((Arg.with_name "cfg").possible_values ["fast", "slow"])).mpr rfl

/-- C7: the `requires` rule list is an ordered list of
`(optional trigger value, target)` pairs: `requires` and `requires_all`
append unconditional entries, `requires_if` and `requires_ifs` append
entries carrying their trigger value, always at the end. -/
theorem requires_rule_list_order (a : Arg) (n v t : String)
    (ns : List String) (ifs : List (String × String)) :
    (a.requires n).requiresList = a.requiresList ++ [(none, n)]
    ∧ (a.requires_all ns).requiresList
        = a.requiresList ++ ns.map (fun s => ((none : Option String), s))
    ∧ (a.requires_if v t).requiresList = a.requiresList ++ [(some v, t)]
    ∧ (a.requires_ifs ifs).requiresList
        = a.requiresList ++ ifs.map (fun p => (some p.1, p.2)) :=
  ⟨rfl, rfl, rfl, rfl⟩

/-- C8: `required_unless_all` appends its names to the required-unless
list and sets `RequiredUnlessAll`; `required_unless_one` appends the
same names and leaves `RequiredUnlessAll` exactly as it was. -/
theorem required_unless_all_vs_one (a : Arg) (ns : List String) :
    (a.required_unless_all ns).rUnlessList = a.rUnlessList ++ ns
    ∧ (a.required_unless_all ns).is_set ArgSettings.RequiredUnlessAll = true
    ∧ (a.required_unless_one ns).rUnlessList = a.rUnlessList ++ ns
    ∧ (a.required_unless_one ns).is_set ArgSettings.RequiredUnlessAll
        = a.is_set ArgSettings.RequiredUnlessAll :=
  ⟨rfl, rfl, rfl, rfl⟩

/-- C9: conditional defaults are stored in declaration order
(`default_value_ifs` appends its triples in order), and the
spec-modelled evaluation applies exactly the first entry in that order
whose trigger fires. -/
theorem default_value_ifs_order_first_wins (a : Arg)
    (ifs : List (String × Option String × String)) (h : a.dvWf) :
    (a.default_value_ifs ifs).dvIfsList = a.dvIfsList ++ ifs
    ∧ ∀ (entries : List (String × Option String × String))
        (present : String → Option String),
        first_matching_default entries present
          = (entries.find? (dvMatches present)).map (fun e => e.2.2) :=
  ⟨(default_value_ifs_spec ifs a h).1,
   fun entries present => first_matching_default_eq_find entries present⟩

/-- C9 witness: two conditional defaults both firing — the
first-declared one is applied. -/
theorem default_value_ifs_order_first_wins_witness :
    ((Arg.with_name "other").default_value_ifs
        [("flag", none, "default"), ("opt", some "channal", "chan")]).dvIfsList
      = (Arg.with_name "other").dvIfsList
          ++ [("flag", none, "default"), ("opt", some "channal", "chan")]
    ∧ first_matching_default
        [("flag", none, "default"), ("opt", some "channal", "chan")]
        (fun nm => if nm = "flag" then some "" else
          if nm = "opt" then some "channal" else none)
      = some "default" := by
  have h := default_value_ifs_order_first_wins (Arg.with_name "other")
    [("flag", none, "default"), ("opt", some "channal", "chan")]
    (by intro p hp; exact absurd hp (List.not_mem_nil p))
  refine ⟨h.1, ?_⟩
  rw [h.2 [("flag", none, "default"), ("opt", some "channal", "chan")]
    (fun nm => if nm = "flag" then some "" else
      if nm = "opt" then some "channal" else none)]
  rfl

/-- C10: `required_unless`, `required_unless_all` and
`required_unless_one` all set the `Required` flag on the resulting
specification. -/
theorem required_unless_sets_required (a : Arg) (n : String) (ns ms : List String) :
    (a.required_unless n).is_set ArgSettings.Required = true
    ∧ (a.required_unless_all ns).is_set ArgSettings.Required = true
    ∧ (a.required_unless_one ms).is_set ArgSettings.Required = true :=
  ⟨rfl, rfl, rfl⟩

end Clap
